import Mathlib

/-!
Verification of the IFC→Babylon geometry ingestion and mesh-consolidation
pipeline (`src/ifcLoader.ts`, with the drop handler of `src/main.ts` and the
material construction of `src/dstest.ts`).

The TypeScript source is shallowly embedded: JavaScript numbers are modelled
as rationals (`ℚ`), `Math.floor` as `Int.floor`, the JS `Map` used for
grouping as an insertion-ordered association list, and the per-fragment
`try/catch` as an `Option`-valued fragment processor.  Scene objects
(Babylon meshes and materials) are modelled by records carrying exactly the
fields the loader reads or writes, plus a provenance field (`frags`)
recording which source fragments contributed geometry to a produced mesh.
-/

namespace IfcBabylon

/-- An RGBA color as delivered by the parser (`placedGeometry.color`),
channels nominally in `[0,1]`. -/
structure Color where
  x : ℚ
  y : ℚ
  z : ℚ
  w : ℚ
deriving DecidableEq

/-- One channel of the color-key computation: `Math.floor(channel * 255)`
(from the `colorId` computation in `loadIfcGeometryAsMeshes`). -/
def quant8 (q : ℚ) : ℤ := ⌊q * 255⌋

/-- The `colorId` computed in `loadIfcGeometryAsMeshes`:
`floor(x*255) + floor(y*255)*256 + floor(z*255)*256^2 + floor(w*255)*256^3`,
and the sentinel `0` when the placed geometry carries no color. -/
def colorIdOf : Option Color → ℤ
  | some c => quant8 c.x + quant8 c.y * 256 + quant8 c.z * 256 * 256 +
      quant8 c.w * 256 * 256 * 256
  | none => 0

/-- One geometry fragment as delivered by the `StreamAllMeshes` callback:
the owning element's express id (`flatMesh.expressID`), the raw interleaved
vertex buffer (6 floats per vertex), the index buffer, and the placed
geometry's optional color.  `decodeFails` models the fragment's processing
body throwing (e.g. `GetVertexArray` failing); the surrounding
`try/catch` logs and skips such a fragment. -/
structure Frag where
  expressID : ℕ
  verts : List ℚ
  indices : List ℕ
  color : Option Color
  decodeFails : Bool
deriving DecidableEq

/-- A collected mesh part: the `MeshWithColor` record together with the
metadata (`expressID`, `colorId`) the loader attaches to the Babylon mesh. -/
structure PartMesh where
  expressID : ℕ
  colorId : ℤ
  color : Option Color
  verts : List ℚ
  indices : List ℕ
deriving DecidableEq, Inhabited

/-- Body of the per-fragment streaming loop: a fragment whose processing
throws is caught and skipped, and a fragment with an empty vertex or index
buffer is skipped (`continue`) before any statistic is updated or mesh
created. -/
def toPart (f : Frag) : Option PartMesh :=
  if f.decodeFails then none
  else if f.verts = [] ∨ f.indices = [] then none
  else some { expressID := f.expressID, colorId := colorIdOf f.color,
              color := f.color, verts := f.verts, indices := f.indices }

/-- The list of mesh parts collected by the streaming pass
(`meshesWithColor`), in stream order. -/
def streamParts (frags : List Frag) : List PartMesh := frags.filterMap toPart

/-- The grouping key.  The source encodes this pair as the string
`expressID-colorId` (function `groupKey`); since the express id's decimal
digits contain no dash, that encoding is injective, so we model the key by
the pair itself. -/
abbrev GroupKey := ℕ × ℤ

/-- The key a part is grouped under: `(expressID, colorId)`. -/
def keyOf (p : PartMesh) : GroupKey := (p.expressID, p.colorId)

/-- JS `Map` update semantics for `meshGroups`: append the part to the
existing group for its key, or append a fresh group at the end (JS `Map`
preserves insertion order of keys). -/
def insertGroup (gs : List (GroupKey × List PartMesh)) (k : GroupKey)
    (p : PartMesh) : List (GroupKey × List PartMesh) :=
  match gs with
  | [] => [(k, [p])]
  | (k', g) :: rest =>
      if k' = k then (k', g ++ [p]) :: rest
      else (k', g) :: insertGroup rest k p

/-- Step 1 of `loadIfcGeometryAsMeshes`: group the collected parts by
`(expressID, colorId)`. -/
def buildGroups (parts : List PartMesh) : List (GroupKey × List PartMesh) :=
  parts.foldl (fun gs p => insertGroup gs (keyOf p) p) []

/-- Lookup of a group's member list (JS `Map.get`, `[]` when absent). -/
def groupContents (gs : List (GroupKey × List PartMesh)) (k : GroupKey) :
    List PartMesh :=
  match gs with
  | [] => []
  | (k', g) :: rest => if k' = k then g else groupContents rest k

/-- The `storeyIDs` set accumulated by `canMergeMeshes`: for each mesh, the
storey of its `expressID` is added when the map has an entry and that entry
is JS-truthy (nonzero). -/
def collectStoreys (ms : List PartMesh) (elementToStorey : ℕ → Option ℕ) :
    List ℕ :=
  ms.foldl (fun acc m =>
    match elementToStorey m.expressID with
    | some sid => if sid ≠ 0 then (if sid ∈ acc then acc else acc ++ [sid]) else acc
    | none => acc) []

/-- `canMergeMeshes`: merging is allowed only when all parts belong to the
same storey or carry no storey assignment (`storeyIDs.size <= 1`). -/
def canMergeMeshes (ms : List PartMesh) (elementToStorey : ℕ → Option ℕ) :
    Bool :=
  (collectStoreys ms elementToStorey).length ≤ 1

/-- A Babylon `StandardMaterial` as configured by `getMaterial`: the fields
the loader writes (diffuse color, alpha, z-offset, back-face culling), plus
the cache key encoded in its name. -/
structure Material where
  name : String
  colorId : ℤ
  diffuse : ℚ × ℚ × ℚ
  alpha : ℚ
  zOffset : ℚ
  backFaceCulling : Bool
deriving DecidableEq, Inhabited

/-- Mutable state of the material pass: the `materialCache` map (insertion
ordered) and the `materialZOffset` counter. -/
structure MatState where
  cache : List (ℤ × Material)
  zOffset : ℚ
deriving DecidableEq

/-- Initial material state: empty cache, zero z-offset counter. -/
def MatState.init : MatState := { cache := [], zOffset := 0 }

/-- `materialCache` lookup keyed by `colorId`. -/
def cacheLookup (cache : List (ℤ × Material)) (k : ℤ) : Option Material :=
  match cache with
  | [] => none
  | (k', m) :: rest => if k' = k then some m else cacheLookup rest k

/-- A fresh `StandardMaterial` as built by `getMaterial`: diffuse from the
color or default gray `(0.8, 0.8, 0.8)` when absent; alpha is the literal
parsed `color.w` (Babylon's default alpha `1` when no color); the current
z-offset; back-face culling disabled. -/
def mkMaterial (colorId : ℤ) (color : Option Color) (z : ℚ) : Material :=
  { name := "ifc-material-" ++ toString colorId
    colorId := colorId
    diffuse := match color with
      | some c => (c.x, c.y, c.z)
      | none => (4/5, 4/5, 4/5)
    alpha := match color with
      | some c => c.w
      | none => 1
    zOffset := z
    backFaceCulling := false }

/-- `getMaterial`: return the cached material for this `colorId`, or create
one, cache it, and advance the z-offset counter by `0.1`. -/
def getMaterial (st : MatState) (colorId : ℤ) (color : Option Color) :
    Material × MatState :=
  match cacheLookup st.cache colorId with
  | some m => (m, st)
  | none =>
      let m := mkMaterial colorId color st.zOffset
      (m, { cache := st.cache ++ [(colorId, m)], zOffset := st.zOffset + 1/10 })

/-- A produced scene mesh: its name, the picking metadata (`expressID`,
`modelID`), its material, the `colorId` of the group that produced it
(spec instrumentation; in the source it is recoverable from the material's
name), and the provenance list of the parts whose geometry the mesh
contains (spec instrumentation for the fused-element set). -/
structure RenderMesh where
  name : String
  expressID : ℕ
  modelID : ℤ
  colorId : ℤ
  material : Material
  frags : List PartMesh
deriving DecidableEq, Inhabited

/-- Step 2 group body of `loadIfcGeometryAsMeshes`, after the material is
fetched: a single-part group keeps its mesh (renamed, material assigned);
a multi-part group is merged into one mesh when `canMergeMeshes` allows it
(the merged mesh copies the first part's metadata), otherwise each part is
kept as its own mesh (renamed after the first part's element, material
assigned).  `Mesh.MergeMeshes` is rendering-engine code; the source's
fallback for a `null` merge result keeps the unmerged parts, and we model
the engine's merge as succeeding. -/
def mkGroupMeshes (storey : ℕ → Option ℕ) (modelID : ℤ) (mat : Material) :
    List PartMesh → List RenderMesh
  | [] => []
  | [p] => [{ name := "ifc-" ++ toString p.expressID, expressID := p.expressID,
              modelID := modelID, colorId := p.colorId, material := mat,
              frags := [p] }]
  | p :: q :: rest =>
      if canMergeMeshes (p :: q :: rest) storey then
        [{ name := "ifc-" ++ toString p.expressID, expressID := p.expressID,
           modelID := modelID, colorId := p.colorId, material := mat,
           frags := p :: q :: rest }]
      else
        (p :: q :: rest).map (fun r =>
          { name := "ifc-" ++ toString p.expressID, expressID := r.expressID,
            modelID := modelID, colorId := p.colorId, material := mat,
            frags := [r] })

/-- One iteration of the `meshGroups.forEach` merge pass: fetch or create
the material for the group's `colorId` (taken, like the color, from the
group's first part), then emit the group's meshes. -/
def stepGroup (storey : ℕ → Option ℕ) (modelID : ℤ)
    (sacc : MatState × List RenderMesh) (kg : GroupKey × List PartMesh) :
    MatState × List RenderMesh :=
  match kg.2 with
  | [] => sacc
  | p :: rest =>
      let r := getMaterial sacc.1 p.colorId p.color
      (r.2, sacc.2 ++ mkGroupMeshes storey modelID r.1 (p :: rest))

/-- The loader statistics the pipeline returns.  `loadTimeMs` and
`memoryUsageMB` are wall-clock measurements and are not modelled; vertex and
triangle counts divide by 6 and 3 in JS float arithmetic, modelled in `ℚ`. -/
structure LoaderStats where
  originalMeshCount : ℕ
  mergedMeshCount : ℕ
  vertexCount : ℚ
  triangleCount : ℚ
  materialCount : ℕ
deriving DecidableEq

/-- `loadIfcGeometryAsMeshes`: stream and decode the fragments, group the
surviving parts by `(expressID, colorId)`, then run the merge pass over the
groups in insertion order, threading the material cache. -/
def consolidate (frags : List Frag) (storey : ℕ → Option ℕ) (modelID : ℤ) :
    List RenderMesh × LoaderStats :=
  let parts := streamParts frags
  let groups := buildGroups parts
  let final := groups.foldl (stepGroup storey modelID) (MatState.init, [])
  (final.2,
   { originalMeshCount := parts.length
     mergedMeshCount := final.2.length
     vertexCount := (parts.map (fun p => (p.verts.length : ℚ) / 6)).sum
     triangleCount := (parts.map (fun p => (p.indices.length : ℚ) / 3)).sum
     materialCount := final.1.cache.length })

/-- The two load-aborting failures of `loadIfcFile`: the HTTP fetch not ok
(`response.ok` false, carrying the status), and `OpenModel` returning the
invalid handle `-1`. -/
inductive LoadError where
  | fetchError (status : ℕ)
  | openError
deriving DecidableEq

/-- The two source variants of `loadIfcFile`: a URL (whose fetch may fail)
or an in-memory `File` (no fetch step). -/
inductive Source where
  | url (fetchOk : Bool) (status : ℕ)
  | file
deriving DecidableEq

/-- Whether the source's fetch step fails (`!response.ok`). -/
def fetchFails : Source → Bool
  | .url ok _ => !ok
  | .file => false

/-- `loadIfcFile`: throw on a failed fetch, then open the model and throw
when `OpenModel` returns `-1`; otherwise return the model handle.
`openResult` abstracts the parser's `OpenModel` return value. -/
def loadIfcFile (src : Source) (openResult : ℤ) : Except LoadError ℤ :=
  match src with
  | .url ok status =>
      if ok then
        if openResult = -1 then .error .openError else .ok openResult
      else .error (.fetchError status)
  | .file =>
      if openResult = -1 then .error .openError else .ok openResult

/-- `loadAndRenderIfc`: open the file, then run the geometry pass (whose
per-fragment `try/catch` never throws; `extractIfcMetadata` also swallows
its own errors).  The outer `try/catch` re-throws, so exactly the
`loadIfcFile` failures propagate. -/
def loadAndRenderIfc (src : Source) (openResult : ℤ) (frags : List Frag)
    (storey : ℕ → Option ℕ) :
    Except LoadError (List RenderMesh × LoaderStats) :=
  match loadIfcFile src openResult with
  | .error e => .error e
  | .ok mid => .ok (consolidate frags storey mid)

/-- Observable resource events of the reload path (`main.ts` drop handler):
disposal of a cached material, of a mesh under the `ifc-root` node, of the
root node itself, closing a parser model handle, creation of a new mesh. -/
inductive Ev where
  | disposeMaterial (name : String)
  | disposeMesh (name : String)
  | disposeRoot
  | closeModel (mid : ℤ)
  | createMesh (name : String)
deriving DecidableEq

/-- The scene state the teardown reads: the scene's material names (in
`scene.materials` order), the meshes under the `ifc-root` node, and whether
that node exists. -/
structure SceneState where
  materials : List String
  rootMeshes : List String
  hasRoot : Bool
deriving DecidableEq

/-- The name prefix `disposeIfcScene` filters materials by. -/
def matNamePre : String := "ifc-material-"

/-- `String.startsWith`, modelled over the strings' character sequences. -/
def strStartsWith (s pre : String) : Bool :=
  pre.data.isPrefixOf s.data

/-- `disposeIfcScene`: first dispose every material whose name starts with
`ifc-material-`, then dispose the `ifc-root` node, which disposes all child
meshes (modelled as the child disposals followed by the node's own). -/
def disposeIfcSceneTrace (s : SceneState) : List Ev :=
  (s.materials.filter (fun n => strStartsWith n matNamePre)).map Ev.disposeMaterial ++
    (if s.hasRoot then s.rootMeshes.map Ev.disposeMesh ++ [Ev.disposeRoot] else [])

/-- `cleanupIfcModel`: close the model handle when it is still open. -/
def cleanupIfcModelTrace (isOpen : ℤ → Bool) (mid : ℤ) : List Ev :=
  if isOpen mid then [Ev.closeModel mid] else []

/-- The drop handler's resource-event trace: when a previous model is
resident (`currentIfcMeshes.length > 0 || currentModelID !== null`), run
`disposeIfcScene` then `cleanupIfcModel`; only afterwards does
`loadAndRenderIfc` create the new model's meshes. -/
def dropHandlerTrace (prevMeshCount : ℕ) (prevModelID : Option ℤ)
    (s : SceneState) (isOpen : ℤ → Bool) (newMeshes : List String) :
    List Ev :=
  (if prevMeshCount > 0 ∨ prevModelID ≠ none then
    disposeIfcSceneTrace s ++
      (match prevModelID with
       | some mid => cleanupIfcModelTrace isOpen mid
       | none => [])
  else []) ++ newMeshes.map Ev.createMesh

/-- Event-kind tests. -/
def Ev.isMatDispose : Ev → Bool
  | .disposeMaterial _ => true
  | _ => false

/-- Mesh-disposal test. -/
def Ev.isMeshDispose : Ev → Bool
  | .disposeMesh _ => true
  | _ => false

/-- Root-node-disposal test. -/
def Ev.isRootDispose : Ev → Bool
  | .disposeRoot => true
  | _ => false

/-- Model-close test. -/
def Ev.isClose : Ev → Bool
  | .closeModel _ => true
  | _ => false

/-- Mesh-creation test. -/
def Ev.isCreate : Ev → Bool
  | .createMesh _ => true
  | _ => false

/-- Any teardown event. -/
def Ev.isTeardown (e : Ev) : Bool :=
  e.isMatDispose || e.isMeshDispose || e.isRootDispose || e.isClose

/-- `eventsOrdered P Q t` holds when every `P`-event of the trace occurs
strictly before every `Q`-event: no `P`-event follows a `Q`-event. -/
def eventsOrdered (P Q : Ev → Bool) : List Ev → Bool
  | [] => true
  | x :: xs => ((!Q x) || xs.all (fun y => !P y)) && eventsOrdered P Q xs

/-- The teardown order claimed for the reload path: meshes disposed before
materials, materials before the root node, the root before the model close,
and every teardown event before any creation of a new mesh. -/
def claimedTeardownOrder (t : List Ev) : Prop :=
  eventsOrdered Ev.isMeshDispose Ev.isMatDispose t = true ∧
  eventsOrdered Ev.isMatDispose Ev.isRootDispose t = true ∧
  eventsOrdered Ev.isRootDispose Ev.isClose t = true ∧
  eventsOrdered Ev.isTeardown Ev.isCreate t = true

/-- A material as configured by `createMaterial` in `dstest.ts`
(non-PBR, cache-miss path): diffuse from the color or default gray, alpha
floored at `0.2` for transparent colors (`Math.max(0.2, color.w)`) with
alpha-blend mode, culling from the `doubleSided` option. -/
structure DsMaterial where
  name : String
  diffuse : ℚ × ℚ × ℚ
  alpha : ℚ
  transparencyMode : Option ℕ
  backFaceCulling : Bool
deriving DecidableEq

/-- `createMaterial` of `dstest.ts` (StandardMaterial path; the cache-hit
path clones the cached material, preserving these fields). -/
def createMaterial (colorKey : String) (color : Option Color)
    (doubleSided : Bool) : DsMaterial :=
  { name := "material-" ++ colorKey
    diffuse := match color with
      | some c => (c.x, c.y, c.z)
      | none => (4/5, 4/5, 4/5)
    alpha := match color with
      | some c => if c.w < 1 then max (1/5) c.w else 1
      | none => 1
    transparencyMode := match color with
      | some c => if c.w < 1 then some 2 else none
      | none => none
    backFaceCulling := !doubleSided }

/-- A 3-component vector of JS numbers. -/
structure Vec3 where
  x : ℚ
  y : ℚ
  z : ℚ
deriving DecidableEq

/-- A mesh's world bounding box (`getBoundingInfo().boundingBox`). -/
structure BoundingBox where
  minimumWorld : Vec3
  maximumWorld : Vec3
deriving DecidableEq

/-- The record `getModelBounds` returns.  The source's `diagonal` is
`Math.sqrt` of `diagonalSq`; we track the radicand, from which the
diagonal's value (and its finiteness) is determined. -/
structure ModelBounds where
  min : Vec3
  max : Vec3
  center : Vec3
  size : Vec3
  diagonalSq : ℚ
deriving DecidableEq

/-- The `Math.min` fold of `getModelBounds`, seeded with `Infinity`
(modelled as `none`; `min(Infinity, q) = q`). -/
def foldMinInf (l : List ℚ) : Option ℚ :=
  l.foldl (fun a q =>
    match a with
    | none => some q
    | some x => some (min x q)) none

/-- The `Math.max` fold of `getModelBounds`, seeded with `-Infinity`. -/
def foldMaxInf (l : List ℚ) : Option ℚ :=
  l.foldl (fun a q =>
    match a with
    | none => some q
    | some x => some (max x q)) none

/-- `getModelBounds`: `null` for an empty mesh list; otherwise fold the
world-box minima and maxima and derive center, size and diagonal. -/
def getModelBounds (meshes : List BoundingBox) : Option ModelBounds :=
  if meshes.isEmpty then none
  else
    let minX := (foldMinInf (meshes.map fun m => m.minimumWorld.x)).getD 0
    let minY := (foldMinInf (meshes.map fun m => m.minimumWorld.y)).getD 0
    let minZ := (foldMinInf (meshes.map fun m => m.minimumWorld.z)).getD 0
    let maxX := (foldMaxInf (meshes.map fun m => m.maximumWorld.x)).getD 0
    let maxY := (foldMaxInf (meshes.map fun m => m.maximumWorld.y)).getD 0
    let maxZ := (foldMaxInf (meshes.map fun m => m.maximumWorld.z)).getD 0
    some { min := ⟨minX, minY, minZ⟩
           max := ⟨maxX, maxY, maxZ⟩
           center := ⟨(minX + maxX) / 2, (minY + maxY) / 2, (minZ + maxZ) / 2⟩
           size := ⟨maxX - minX, maxY - minY, maxZ - minZ⟩
           diagonalSq := (maxX - minX) ^ 2 + (maxY - minY) ^ 2 + (maxZ - minZ) ^ 2 }

/-- The material-disposal segment of the drop handler's trace. -/
def tdMat (pk : ℕ) (pid : Option ℤ) (s : SceneState) : List Ev :=
  if pk > 0 ∨ pid ≠ none then
    (s.materials.filter (fun n => strStartsWith n matNamePre)).map Ev.disposeMaterial
  else []

/-- The mesh-disposal segment of the drop handler's trace. -/
def tdMesh (pk : ℕ) (pid : Option ℤ) (s : SceneState) : List Ev :=
  if (pk > 0 ∨ pid ≠ none) ∧ s.hasRoot then s.rootMeshes.map Ev.disposeMesh
  else []

/-- The root-disposal segment of the drop handler's trace. -/
def tdRoot (pk : ℕ) (pid : Option ℤ) (s : SceneState) : List Ev :=
  if (pk > 0 ∨ pid ≠ none) ∧ s.hasRoot then [Ev.disposeRoot] else []

/-- The model-close segment of the drop handler's trace. -/
def tdClose (pk : ℕ) (pid : Option ℤ) (io : ℤ → Bool) : List Ev :=
  if pk > 0 ∨ pid ≠ none then
    (match pid with
     | some mid => cleanupIfcModelTrace io mid
     | none => [])
  else []

/-- Concrete fixture: the storey map assigning element `1` to storey `10`
and element `2` to storey `20`. -/
def storeyAB : ℕ → Option ℕ :=
  fun n => if n = 1 then some 10 else if n = 2 then some 20 else none

/-- Concrete fixture: a colorless valid fragment of element `1`. -/
def fragA : Frag := ⟨1, [0], [0], none, false⟩

/-- Concrete fixture: a colorless valid fragment of element `2`. -/
def fragB : Frag := ⟨2, [0], [0], none, false⟩

/-- Concrete fixture: a red fragment of element `1`. -/
def fragRed : Frag := ⟨1, [1], [0], some ⟨1, 0, 0, 1⟩, false⟩

/-- Concrete fixture: a blue fragment of element `1`. -/
def fragBlue : Frag := ⟨1, [2], [0], some ⟨0, 0, 1, 1⟩, false⟩

/-- Concrete fixture: a fragment of element `3` whose color is nonzero but
quantizes to `0` in every channel. -/
def fragTiny : Frag := ⟨3, [0], [0], some ⟨1/500, 1/500, 1/500, 1/500⟩, false⟩

/-- Concrete fixture: a fragment of element `1` with alpha `0.05`. -/
def fragGlass : Frag := ⟨1, [0], [0], some ⟨1, 0, 0, 1/20⟩, false⟩

/-- Concrete fixture: a fragment with an empty vertex buffer. -/
def fragEmpty : Frag := ⟨7, [], [0], none, false⟩

/-- Concrete fixture: a fragment whose processing throws. -/
def fragBad : Frag := ⟨8, [0], [0], none, true⟩

/-- Concrete fixture: a color-key string for the `dstest.ts` material
builder. -/
def sampleKey : String := "201326847" 

/-- Two rationals with the same floor differ by less than one. -/
lemma abs_sub_lt_one_of_floor_eq {a b : ℚ} (h : ⌊a⌋ = ⌊b⌋) : |a - b| < 1 := by
  have ha₁ : (⌊a⌋ : ℚ) ≤ a := Int.floor_le a
  have ha₂ : a < ⌊a⌋ + 1 := Int.lt_floor_add_one a
  have hb₁ : (⌊b⌋ : ℚ) ≤ b := Int.floor_le b
  have hb₂ : b < ⌊b⌋ + 1 := Int.lt_floor_add_one b
  rw [abs_sub_lt_iff]
  rw [h] at ha₁ ha₂
  constructor <;> linarith

/-- `quant8` of a channel in `[0,1]` lies in `[0,255]`. -/
lemma quant8_bounds {q : ℚ} (h0 : 0 ≤ q) (h1 : q ≤ 1) :
    0 ≤ quant8 q ∧ quant8 q ≤ 255 := by
  constructor
  · exact Int.floor_nonneg.mpr (by nlinarith)
  · have : q * 255 ≤ 255 := by nlinarith
    calc quant8 q ≤ ⌊(255 : ℚ)⌋ := Int.floor_le_floor this
    _ = 255 := by norm_num

/-- Channels differing by more than `1/255` quantize to different values. -/
lemma quant8_ne_of_gap {a b : ℚ} (h : 1 / 255 < |a - b|) :
    quant8 a ≠ quant8 b := by
  intro heq
  have hlt : |a * 255 - b * 255| < 1 := abs_sub_lt_one_of_floor_eq heq
  have : |a - b| * 255 < 1 := by
    calc |a - b| * 255 = |(a - b) * 255| := by
          rw [abs_mul]; norm_num
    _ = |a * 255 - b * 255| := by ring_nf
    _ < 1 := hlt
  nlinarith [abs_nonneg (a - b)]

/-- Inserting into the group map appends to the matching group and leaves
other groups unchanged. -/
lemma groupContents_insertGroup (gs : List (GroupKey × List PartMesh))
    (k' k : GroupKey) (p : PartMesh) :
    groupContents (insertGroup gs k' p) k =
      groupContents gs k ++ (if k' = k then [p] else []) := by
  induction gs with
  | nil =>
      by_cases h : k' = k <;> simp [insertGroup, groupContents, h]
  | cons a rest ih =>
      obtain ⟨ka, ga⟩ := a
      by_cases h : ka = k'
      · subst h
        by_cases h2 : ka = k <;> simp [insertGroup, groupContents, h2]
      · by_cases h2 : ka = k
        · subst h2
          simp [insertGroup, groupContents, h, Ne.symm h]
        · simp [insertGroup, groupContents, h, h2, ih]

/-- The fold building the group map accumulates, per key, exactly the parts
with that key, in stream order. -/
lemma groupContents_foldl (parts : List PartMesh)
    (gs : List (GroupKey × List PartMesh)) (k : GroupKey) :
    groupContents (parts.foldl (fun gs p => insertGroup gs (keyOf p) p) gs) k =
      groupContents gs k ++ parts.filter (fun p => decide (keyOf p = k)) := by
  induction parts generalizing gs with
  | nil => simp
  | cons p rest ih =>
      simp only [List.foldl_cons, List.filter_cons]
      rw [ih, groupContents_insertGroup]
      by_cases h : keyOf p = k <;> simp [h]

/-- A group's members are exactly the parts carrying its key. -/
lemma groupContents_buildGroups (parts : List PartMesh) (k : GroupKey) :
    groupContents (buildGroups parts) k =
      parts.filter (fun p => decide (keyOf p = k)) := by
  have h := groupContents_foldl parts [] k
  simpa [buildGroups, groupContents] using h

/-- Inserting adds the key at the end when new, else keeps the key list. -/
lemma keys_insertGroup (gs : List (GroupKey × List PartMesh)) (k' : GroupKey)
    (p : PartMesh) :
    (insertGroup gs k' p).map Prod.fst =
      if k' ∈ gs.map Prod.fst then gs.map Prod.fst
      else gs.map Prod.fst ++ [k'] := by
  induction gs with
  | nil => simp [insertGroup]
  | cons a rest ih =>
      obtain ⟨ka, ga⟩ := a
      by_cases h : ka = k'
      · subst h
        simp [insertGroup]
      · by_cases h2 : k' ∈ rest.map Prod.fst <;>
          simp [insertGroup, h, h2, ih, Ne.symm h]

/-- The group map's keys stay duplicate-free through the fold. -/
lemma keys_nodup_foldl (parts : List PartMesh)
    (gs : List (GroupKey × List PartMesh)) (h : (gs.map Prod.fst).Nodup) :
    (((parts.foldl (fun gs p => insertGroup gs (keyOf p) p) gs)).map
        Prod.fst).Nodup := by
  induction parts generalizing gs with
  | nil => simpa
  | cons p rest ih =>
      simp only [List.foldl_cons]
      apply ih
      rw [keys_insertGroup]
      by_cases hk : keyOf p ∈ gs.map Prod.fst
      · simpa [hk]
      · simp only [hk, if_false]
        simp [List.nodup_append, h, hk]

/-- The keys of the built group map are duplicate-free. -/
lemma keys_buildGroups_nodup (parts : List PartMesh) :
    ((buildGroups parts).map Prod.fst).Nodup :=
  keys_nodup_foldl parts [] (by simp)

/-- A key occurs in the folded map iff it was present before or some
streamed part carries it. -/
lemma mem_keys_foldl (parts : List PartMesh)
    (gs : List (GroupKey × List PartMesh)) (k : GroupKey) :
    k ∈ ((parts.foldl (fun gs p => insertGroup gs (keyOf p) p) gs).map
        Prod.fst) ↔
      k ∈ gs.map Prod.fst ∨ ∃ p ∈ parts, keyOf p = k := by
  induction parts generalizing gs with
  | nil => simp
  | cons p rest ih =>
      simp only [List.foldl_cons]
      rw [ih, keys_insertGroup]
      by_cases hk : keyOf p ∈ gs.map Prod.fst
      · simp only [hk, if_true]
        constructor
        · rintro (h | ⟨q, hq, hqk⟩)
          · exact Or.inl h
          · exact Or.inr ⟨q, List.mem_cons_of_mem p hq, hqk⟩
        · rintro (h | ⟨q, hq, hqk⟩)
          · exact Or.inl h
          · rcases List.mem_cons.mp hq with rfl | hq'
            · subst hqk; exact Or.inl hk
            · exact Or.inr ⟨q, hq', hqk⟩
      · simp only [hk, if_false, List.mem_append, List.mem_singleton]
        constructor
        · rintro ((h | h) | ⟨q, hq, hqk⟩)
          · exact Or.inl h
          · exact Or.inr ⟨p, List.mem_cons_self p rest, h.symm⟩
          · exact Or.inr ⟨q, List.mem_cons_of_mem p hq, hqk⟩
        · rintro (h | ⟨q, hq, hqk⟩)
          · exact Or.inl (Or.inl h)
          · rcases List.mem_cons.mp hq with rfl | hq'
            · exact Or.inl (Or.inr hqk.symm)
            · exact Or.inr ⟨q, hq', hqk⟩

/-- With duplicate-free keys, a map entry is retrieved by its key. -/
lemma groupContents_of_mem (gs : List (GroupKey × List PartMesh))
    (hnd : (gs.map Prod.fst).Nodup) (k : GroupKey) (g : List PartMesh)
    (h : (k, g) ∈ gs) : groupContents gs k = g := by
  induction gs with
  | nil => cases h
  | cons a rest ih =>
      obtain ⟨ka, ga⟩ := a
      rcases List.mem_cons.mp h with h1 | h1
      · injection h1 with e1 e2
        subst e1
        subst e2
        simp [groupContents]
      · have hka : ka ≠ k := by
          intro hkk
          subst hkk
          have : ka ∈ rest.map Prod.fst :=
            List.mem_map.mpr ⟨(ka, g), h1, rfl⟩
          exact (List.nodup_cons.mp hnd).1 this
        simp only [groupContents, hka, if_false]
        exact ih (List.nodup_cons.mp hnd).2 h1

/-- Every group of the built map holds exactly the parts with its key. -/
lemma mem_buildGroups_eq_filter (parts : List PartMesh) (k : GroupKey)
    (g : List PartMesh) (h : (k, g) ∈ buildGroups parts) :
    g = parts.filter (fun p => decide (keyOf p = k)) := by
  rw [← groupContents_of_mem (buildGroups parts) (keys_buildGroups_nodup parts) k g h]
  exact groupContents_buildGroups parts k

/-- Members of a built group carry the group's key and come from the
streamed parts. -/
lemma mem_buildGroups_key (parts : List PartMesh) (k : GroupKey)
    (g : List PartMesh) (h : (k, g) ∈ buildGroups parts) :
    ∀ q ∈ g, keyOf q = k ∧ q ∈ parts := by
  intro q hq
  rw [mem_buildGroups_eq_filter parts k g h] at hq
  have := List.mem_filter.mp hq
  exact ⟨by simpa using this.2, this.1⟩

/-- Groups of the built map are nonempty. -/
lemma mem_buildGroups_ne_nil (parts : List PartMesh) (k : GroupKey)
    (g : List PartMesh) (h : (k, g) ∈ buildGroups parts) : g ≠ [] := by
  have hk : k ∈ (buildGroups parts).map Prod.fst :=
    List.mem_map.mpr ⟨(k, g), h, rfl⟩
  have hex : ∃ p ∈ parts, keyOf p = k := by
    have := (mem_keys_foldl parts [] k).mp (by simpa [buildGroups] using hk)
    simpa using this
  obtain ⟨p, hp, hpk⟩ := hex
  have : p ∈ g := by
    rw [mem_buildGroups_eq_filter parts k g h]
    exact List.mem_filter.mpr ⟨hp, by simpa using hpk⟩
  exact List.ne_nil_of_mem this

/-- Every value collected into `storeyIDs` is either an initial accumulator
member or a truthy storey of one of the parts. -/
lemma collectStoreys_spec (ms : List PartMesh) (storey : ℕ → Option ℕ)
    (acc : List ℕ) :
    ∀ x ∈ ms.foldl (fun acc m =>
        match storey m.expressID with
        | some sid => if sid ≠ 0 then (if sid ∈ acc then acc else acc ++ [sid]) else acc
        | none => acc) acc,
      x ∈ acc ∨ ∃ q ∈ ms, storey q.expressID = some x ∧ x ≠ 0 := by
  induction ms generalizing acc with
  | nil => simp
  | cons q rest ih =>
      intro x hx
      simp only [List.foldl_cons] at hx
      rcases ih _ x hx with h | ⟨r, hr, hrx⟩
      · rcases hs : storey q.expressID with _ | sid
        · rw [hs] at h
          exact Or.inl h
        · rw [hs] at h
          dsimp only at h
          by_cases h0 : sid ≠ 0
          · rw [if_pos h0] at h
            by_cases hmem : sid ∈ acc
            · rw [if_pos hmem] at h
              exact Or.inl h
            · rw [if_neg hmem] at h
              rcases List.mem_append.mp h with h' | h'
              · exact Or.inl h'
              · have hxs : x = sid := List.mem_singleton.mp h'
                subst hxs
                exact Or.inr ⟨q, List.mem_cons_self q rest, hs, h0⟩
          · rw [if_neg h0] at h
            exact Or.inl h
      · exact Or.inr ⟨r, List.mem_cons_of_mem q hr, hrx⟩

/-- The `storeyIDs` accumulator stays duplicate-free (it models a JS
`Set`). -/
lemma collectStoreys_nodup (ms : List PartMesh) (storey : ℕ → Option ℕ)
    (acc : List ℕ) (hacc : acc.Nodup) :
    (ms.foldl (fun acc m =>
        match storey m.expressID with
        | some sid => if sid ≠ 0 then (if sid ∈ acc then acc else acc ++ [sid]) else acc
        | none => acc) acc).Nodup := by
  induction ms generalizing acc with
  | nil => simpa
  | cons q rest ih =>
      simp only [List.foldl_cons]
      refine ih _ ?_
      rcases hs : storey q.expressID with _ | sid
      · exact hacc
      · dsimp only
        by_cases h0 : sid ≠ 0
        · rw [if_pos h0]
          by_cases hmem : sid ∈ acc
          · rw [if_pos hmem]
            exact hacc
          · rw [if_neg hmem]
            simp [List.nodup_append, hacc, hmem]
        · rw [if_neg h0]
          exact hacc

/-- A duplicate-free list whose elements are pairwise equal has at most one
element. -/
lemma length_le_one_of_all_eq {l : List ℕ} (hnd : l.Nodup)
    (hall : ∀ x ∈ l, ∀ y ∈ l, x = y) : l.length ≤ 1 := by
  match l with
  | [] => simp
  | [x] => simp
  | x :: y :: rest =>
      exfalso
      have hxy : x = y := hall x (by simp) y (by simp)
      have hx : x ∉ y :: rest := (List.nodup_cons.mp hnd).1
      exact hx (by simp [hxy])

/-- `canMergeMeshes` always allows merging a group whose parts all belong
to the same element: at most one storey id can be collected. -/
lemma canMerge_of_same_element (ms : List PartMesh)
    (storey : ℕ → Option ℕ) (e : ℕ) (he : ∀ q ∈ ms, q.expressID = e) :
    canMergeMeshes ms storey = true := by
  have hall : ∀ x ∈ collectStoreys ms storey, storey e = some x ∧ x ≠ 0 := by
    intro x hx
    rcases collectStoreys_spec ms storey [] x hx with h | ⟨q, hq, hqx⟩
    · cases h
    · rw [he q hq] at hqx
      exact hqx
  have hnd : (collectStoreys ms storey).Nodup :=
    collectStoreys_nodup ms storey [] (by simp)
  have hlen : (collectStoreys ms storey).length ≤ 1 := by
    refine length_le_one_of_all_eq hnd ?_
    intro x hx y hy
    have h1 := hall x hx
    have h2 := hall y hy
    rw [h1.1] at h2
    exact Option.some_inj.mp h2.1
  simpa [canMergeMeshes] using hlen

/-- For a group whose parts all belong to one element, the merge pass emits
exactly one mesh, named from and carrying that element, fusing the whole
group's geometry. -/
lemma mkGroupMeshes_same_element (storey : ℕ → Option ℕ) (mid : ℤ)
    (mat : Material) (p : PartMesh) (rest : List PartMesh)
    (he : ∀ q ∈ p :: rest, q.expressID = p.expressID) :
    mkGroupMeshes storey mid mat (p :: rest) =
      [{ name := "ifc-" ++ toString p.expressID, expressID := p.expressID,
         modelID := mid, colorId := p.colorId, material := mat,
         frags := p :: rest }] := by
  match rest with
  | [] => rfl
  | q :: rest' =>
      have hc : canMergeMeshes (p :: q :: rest') storey = true :=
        canMerge_of_same_element _ storey p.expressID he
      simp [mkGroupMeshes, hc]

/-- Meshes accumulated by the merge-pass fold either were already
accumulated or come from one group's emission under some material state. -/
lemma mem_foldl_groups (storey : ℕ → Option ℕ) (mid : ℤ)
    (groups : List (GroupKey × List PartMesh)) (st : MatState)
    (acc : List RenderMesh) (m : RenderMesh)
    (h : m ∈ (groups.foldl (stepGroup storey mid) (st, acc)).2) :
    m ∈ acc ∨ ∃ kg ∈ groups, ∃ st' : MatState,
      m ∈ mkGroupMeshes storey mid (getMaterial st' kg.2.headI.colorId kg.2.headI.color).1 kg.2 := by
  induction groups generalizing st acc with
  | nil => exact Or.inl (by simpa using h)
  | cons kg rest ih =>
      obtain ⟨k, g⟩ := kg
      rcases g with _ | ⟨p, gr⟩
      · simp only [List.foldl_cons] at h
        rcases ih _ _ h with h1 | ⟨kg', hkg', st', hm⟩
        · exact Or.inl h1
        · exact Or.inr ⟨kg', List.mem_cons_of_mem _ hkg', st', hm⟩
      · simp only [List.foldl_cons] at h
        rcases ih _ _ h with h1 | ⟨kg', hkg', st', hm⟩
        · rcases List.mem_append.mp h1 with h2 | h2
          · exact Or.inl h2
          · exact Or.inr ⟨(k, p :: gr), List.mem_cons_self _ _, st, by simpa using h2⟩
        · exact Or.inr ⟨kg', List.mem_cons_of_mem _ hkg', st', hm⟩

/-- Every mesh the consolidation pass produces contains geometry of exactly
one element: the one in its metadata.  Cross-element fusion cannot occur
because grouping is keyed by `(expressID, colorId)`. -/
lemma consolidate_single_element (frags : List Frag)
    (storey : ℕ → Option ℕ) (mid : ℤ) (m : RenderMesh)
    (hm : m ∈ (consolidate frags storey mid).1) :
    ∀ f ∈ m.frags, f.expressID = m.expressID := by
  have h : m ∈ ((buildGroups (streamParts frags)).foldl
      (stepGroup storey mid) (MatState.init, [])).2 := hm
  rcases mem_foldl_groups storey mid _ _ _ m h with h1 | ⟨⟨k, g⟩, hkg, st', hmm⟩
  · cases h1
  · have hkey := mem_buildGroups_key _ _ _ hkg
    rcases g with _ | ⟨p, gr⟩
    · cases hmm
    · have he : ∀ q ∈ p :: gr, q.expressID = p.expressID := by
        intro q hq
        have h1 := (hkey q hq).1
        have h2 := (hkey p (List.mem_cons_self p gr)).1
        have : q.expressID = k.1 := congrArg Prod.fst h1
        rw [this, ← congrArg Prod.fst h2]
        rfl
      rw [mkGroupMeshes_same_element storey mid _ p gr he] at hmm
      rcases List.mem_singleton.mp hmm with rfl
      intro f hf
      exact he f hf

/-- The emission for a group with a uniform key contributes exactly one
mesh matching `(e, c)` when the key is `(e, c)`, and none otherwise. -/
lemma countP_mkGroupMeshes (storey : ℕ → Option ℕ) (mid : ℤ)
    (mat : Material) (e : ℕ) (c : ℤ) (k : GroupKey) (p : PartMesh)
    (rest : List PartMesh) (hkey : ∀ q ∈ p :: rest, keyOf q = k) :
    (mkGroupMeshes storey mid mat (p :: rest)).countP
        (fun m => decide (m.expressID = e ∧ m.colorId = c)) =
      if k = (e, c) then 1 else 0 := by
  have he : ∀ q ∈ p :: rest, q.expressID = p.expressID := by
    intro q hq
    have h1 := congrArg Prod.fst (hkey q hq)
    have h2 := congrArg Prod.fst (hkey p (List.mem_cons_self p rest))
    rw [show q.expressID = (keyOf q).1 from rfl, h1, ← h2]
    rfl
  rw [mkGroupMeshes_same_element storey mid mat p rest he]
  have hp := hkey p (List.mem_cons_self p rest)
  have hp1 : p.expressID = k.1 := congrArg Prod.fst hp
  have hp2 : p.colorId = k.2 := congrArg Prod.snd hp
  by_cases hk : k = (e, c)
  · subst hk
    simp [List.countP_cons, hp1, hp2]
  · have : ¬(p.expressID = e ∧ p.colorId = c) := by
      intro ⟨a, b⟩
      exact hk (Prod.ext (by rw [← hp1, a]) (by rw [← hp2, b]))
    simp [List.countP_cons, this, hk]

/-- The merge-pass fold counts, per `(e, c)`, one mesh for each group whose
key is `(e, c)`. -/
lemma countP_foldl_groups (storey : ℕ → Option ℕ) (mid : ℤ) (e : ℕ) (c : ℤ)
    (groups : List (GroupKey × List PartMesh)) (st : MatState)
    (acc : List RenderMesh)
    (hg : ∀ kg ∈ groups, (∀ q ∈ kg.2, keyOf q = kg.1) ∧ kg.2 ≠ []) :
    ((groups.foldl (stepGroup storey mid) (st, acc)).2).countP
        (fun m => decide (m.expressID = e ∧ m.colorId = c)) =
      acc.countP (fun m => decide (m.expressID = e ∧ m.colorId = c)) +
        (groups.map (fun kg => if kg.1 = (e, c) then 1 else 0)).sum := by
  induction groups generalizing st acc with
  | nil => simp
  | cons kg rest ih =>
      obtain ⟨k, g⟩ := kg
      have hkg := hg (k, g) (List.mem_cons_self _ _)
      rcases g with _ | ⟨p, gr⟩
      · exact absurd rfl hkg.2
      · simp only [List.foldl_cons]
        rw [ih _ _ (fun kg' hkg' => hg kg' (List.mem_cons_of_mem _ hkg'))]
        show (acc ++ mkGroupMeshes storey mid _ (p :: gr)).countP _ + _ = _
        rw [List.countP_append,
          countP_mkGroupMeshes storey mid _ e c k p gr hkg.1,
          List.map_cons, List.sum_cons]
        dsimp only
        omega

/-- Sum of a key indicator over a list not containing the key. -/
lemma sum_indicator_not_mem (l : List GroupKey) (k : GroupKey)
    (hk : k ∉ l) :
    (l.map (fun x => if x = k then (1 : ℕ) else 0)).sum = 0 := by
  induction l with
  | nil => rfl
  | cons x rest ih =>
      have hx : x ≠ k := fun h => hk (h ▸ List.mem_cons_self x rest)
      have hr : k ∉ rest := fun h => hk (List.mem_cons_of_mem x h)
      simp [hx, ih hr]

/-- Sum of a key indicator over a duplicate-free list containing the key. -/
lemma sum_indicator_nodup (l : List GroupKey) (k : GroupKey)
    (hnd : l.Nodup) (hk : k ∈ l) :
    (l.map (fun x => if x = k then (1 : ℕ) else 0)).sum = 1 := by
  induction l with
  | nil => cases hk
  | cons x rest ih =>
      rcases List.mem_cons.mp hk with heq | hk'
      · have hx : x = k := heq.symm
        have hr : k ∉ rest := by
          rw [← hx]
          exact (List.nodup_cons.mp hnd).1
        simp [hx, sum_indicator_not_mem rest k hr]
      · have hx : x ≠ k := by
          rintro rfl
          exact (List.nodup_cons.mp hnd).1 hk'
        simp [hx, ih (List.nodup_cons.mp hnd).2 hk']

/-- A freshly appended cache entry is visible exactly when earlier entries
miss. -/
lemma cacheLookup_append (cache : List (ℤ × Material)) (k k' : ℤ)
    (m : Material) :
    cacheLookup (cache ++ [(k', m)]) k =
      match cacheLookup cache k with
      | some r => some r
      | none => if k' = k then some m else none := by
  induction cache with
  | nil => rfl
  | cons a rest ih =>
      obtain ⟨ka, ma⟩ := a
      by_cases h : ka = k <;> simp [cacheLookup, h, ih]

/-- `getMaterial` never invalidates an existing cache entry. -/
lemma getMaterial_preserves (st : MatState) (cid : ℤ) (col : Option Color)
    (k : ℤ) (r : Material) (h : cacheLookup st.cache k = some r) :
    cacheLookup (getMaterial st cid col).2.cache k = some r := by
  unfold getMaterial
  cases hc : cacheLookup st.cache cid
  · dsimp only
    rw [cacheLookup_append, h]
  · exact h

/-- After `getMaterial`, the cache resolves the requested `colorId` to the
returned material. -/
lemma getMaterial_self (st : MatState) (cid : ℤ) (col : Option Color) :
    cacheLookup (getMaterial st cid col).2.cache cid =
      some (getMaterial st cid col).1 := by
  unfold getMaterial
  cases hc : cacheLookup st.cache cid
  · dsimp only
    rw [cacheLookup_append, hc]
    simp
  · exact hc

/-- The default-gray appearance `getMaterial` gives a colorless group. -/
def isDefaultGray (r : Material) : Prop :=
  r.diffuse = (4/5, 4/5, 4/5) ∧ r.alpha = 1

/-- Every mesh emitted for a group carries the group's material and the
group head's `colorId`. -/
lemma mem_mkGroupMeshes_fields (storey : ℕ → Option ℕ) (mid : ℤ)
    (mat : Material) (p : PartMesh) (g : List PartMesh) (m : RenderMesh)
    (hm : m ∈ mkGroupMeshes storey mid mat (p :: g)) :
    m.material = mat ∧ m.colorId = p.colorId := by
  match g with
  | [] =>
      rcases List.mem_singleton.mp hm with rfl
      exact ⟨rfl, rfl⟩
  | q :: rest =>
      by_cases hc : canMergeMeshes (p :: q :: rest) storey = true
      · rw [show mkGroupMeshes storey mid mat (p :: q :: rest) = _ from rfl] at hm
        simp only [mkGroupMeshes, hc, if_true] at hm
        rcases List.mem_singleton.mp hm with rfl
        exact ⟨rfl, rfl⟩
      · simp only [mkGroupMeshes, hc, if_false] at hm
        rcases List.mem_map.mp hm with ⟨r, _, rfl⟩
        exact ⟨rfl, rfl⟩

/-- Through the merge-pass fold, every produced mesh's `colorId` resolves in
the final cache to that mesh's material: meshes of equal `colorId` share
one cached material. -/
lemma foldl_groups_cache_inv (storey : ℕ → Option ℕ) (mid : ℤ)
    (groups : List (GroupKey × List PartMesh)) (st : MatState)
    (acc : List RenderMesh)
    (hinv : ∀ m ∈ acc, cacheLookup st.cache m.colorId = some m.material) :
    ∀ m ∈ (groups.foldl (stepGroup storey mid) (st, acc)).2,
      cacheLookup ((groups.foldl (stepGroup storey mid) (st, acc)).1).cache
          m.colorId = some m.material := by
  induction groups generalizing st acc with
  | nil => simpa using hinv
  | cons kg rest ih =>
      obtain ⟨k, g⟩ := kg
      rcases g with _ | ⟨p, gr⟩
      · simpa using ih st acc hinv
      · simp only [List.foldl_cons]
        apply ih
        intro m hm
        rcases List.mem_append.mp hm with h1 | h1
        · exact getMaterial_preserves st p.colorId p.color m.colorId
            m.material (hinv m h1)
        · obtain ⟨hmat, hcid⟩ :=
            mem_mkGroupMeshes_fields storey mid _ p gr m h1
          rw [hmat, hcid]
          exact getMaterial_self st p.colorId p.color

/-- Through the merge-pass fold, the cached material for the sentinel key
`0` stays default gray, provided every part with `colorId 0` in the groups
is colorless. -/
lemma foldl_groups_gray_inv (storey : ℕ → Option ℕ) (mid : ℤ)
    (groups : List (GroupKey × List PartMesh)) (st : MatState)
    (acc : List RenderMesh)
    (hcol : ∀ kg ∈ groups, ∀ q ∈ kg.2, q.colorId = 0 → q.color = none)
    (hst : ∀ r, cacheLookup st.cache 0 = some r → isDefaultGray r) :
    ∀ r, cacheLookup ((groups.foldl (stepGroup storey mid)
        (st, acc)).1).cache 0 = some r → isDefaultGray r := by
  induction groups generalizing st acc with
  | nil => simpa using hst
  | cons kg rest ih =>
      obtain ⟨k, g⟩ := kg
      rcases g with _ | ⟨p, gr⟩
      · exact ih st acc (fun kg' h' => hcol kg' (List.mem_cons_of_mem _ h')) hst
      · simp only [List.foldl_cons]
        apply ih _ _ (fun kg' h' => hcol kg' (List.mem_cons_of_mem _ h'))
        intro r hr
        have hr2 : cacheLookup (getMaterial st p.colorId p.color).2.cache 0 =
            some r := hr
        clear hr
        rename' hr2 => hr
        unfold getMaterial at hr
        cases hc : cacheLookup st.cache p.colorId
        · rw [hc] at hr
          dsimp only at hr
          rw [cacheLookup_append] at hr
          cases h0 : cacheLookup st.cache 0
          · rw [h0] at hr
            dsimp only at hr
            by_cases hp0 : p.colorId = 0
            · rw [if_pos hp0] at hr
              have hcolp : p.color = none :=
                hcol (k, p :: gr) (List.mem_cons_self _ _) p
                  (List.mem_cons_self p gr) hp0
              injection hr with hr'
              rw [← hr', hcolp]
              exact ⟨rfl, rfl⟩
            · rw [if_neg hp0] at hr
              cases hr
          · rw [h0] at hr
            dsimp only at hr
            injection hr with hr'
            exact hr' ▸ hst _ h0
        · rw [hc] at hr
          exact hst r hr

/-- A fragment with an empty vertex or index buffer is skipped. -/
lemma toPart_none_of_empty (f : Frag) (hf : f.verts = [] ∨ f.indices = []) :
    toPart f = none := by
  unfold toPart
  by_cases hd : f.decodeFails <;> simp [hd, hf]

/-- A fragment whose processing throws is skipped. -/
lemma toPart_none_of_fails (f : Frag) (hf : f.decodeFails = true) :
    toPart f = none := by
  simp [toPart, hf]

/-- A skipped fragment leaves the whole consolidation result unchanged:
no mesh, no statistic, no material. -/
lemma consolidate_skip (f : Frag) (l1 l2 : List Frag)
    (storey : ℕ → Option ℕ) (mid : ℤ) (hf : toPart f = none) :
    consolidate (l1 ++ f :: l2) storey mid = consolidate (l1 ++ l2) storey mid := by
  have hs : streamParts (l1 ++ f :: l2) = streamParts (l1 ++ l2) := by
    simp [streamParts, List.filterMap_append, List.filterMap_cons, hf]
  unfold consolidate
  rw [hs]

/-- `loadIfcFile` fails exactly on a failed fetch or the invalid handle. -/
lemma loadIfcFile_error_iff (src : Source) (openResult : ℤ) :
    (∃ er, loadIfcFile src openResult = .error er) ↔
      fetchFails src = true ∨ openResult = -1 := by
  cases src with
  | url ok status =>
      cases ok <;> by_cases ho : openResult = -1 <;>
        simp [loadIfcFile, fetchFails, ho]
  | file =>
      by_cases ho : openResult = -1 <;> simp [loadIfcFile, fetchFails, ho]

/-- The `Math.min` fold over a nonempty list loses its `Infinity` seed. -/
lemma foldMinInf_go (xs : List ℚ) (x : ℚ) :
    xs.foldl (fun a q =>
      match a with
      | none => some q
      | some v => some (min v q)) (some x) = some (xs.foldl min x) := by
  induction xs generalizing x with
  | nil => rfl
  | cons y ys ih => exact ih (min x y)

/-- `foldMinInf` on a nonempty list is the plain minimum fold. -/
lemma foldMinInf_cons (x : ℚ) (xs : List ℚ) :
    foldMinInf (x :: xs) = some (xs.foldl min x) := by
  unfold foldMinInf
  rw [List.foldl_cons]
  exact foldMinInf_go xs x

/-- The `Math.max` fold over a nonempty list loses its `-Infinity` seed. -/
lemma foldMaxInf_go (xs : List ℚ) (x : ℚ) :
    xs.foldl (fun a q =>
      match a with
      | none => some q
      | some v => some (max v q)) (some x) = some (xs.foldl max x) := by
  induction xs generalizing x with
  | nil => rfl
  | cons y ys ih => exact ih (max x y)

/-- `foldMaxInf` on a nonempty list is the plain maximum fold. -/
lemma foldMaxInf_cons (x : ℚ) (xs : List ℚ) :
    foldMaxInf (x :: xs) = some (xs.foldl max x) := by
  unfold foldMaxInf
  rw [List.foldl_cons]
  exact foldMaxInf_go xs x

/-- A trace without `P`-events is ordered for any `Q`. -/
lemma eventsOrdered_of_no_P (P Q : Ev → Bool) (t : List Ev)
    (h : ∀ y ∈ t, P y = false) : eventsOrdered P Q t = true := by
  induction t with
  | nil => rfl
  | cons x xs ih =>
      simp only [eventsOrdered, Bool.and_eq_true, Bool.or_eq_true]
      refine ⟨Or.inr ?_, ih fun y hy => h y (List.mem_cons_of_mem x hy)⟩
      exact List.all_eq_true.mpr fun y hy => by
        simp [h y (List.mem_cons_of_mem x hy)]

/-- If a trace splits into a prefix without `Q`-events and a suffix without
`P`-events, all `P`-events precede all `Q`-events. -/
lemma eventsOrdered_split (P Q : Ev → Bool) (l1 l2 : List Ev)
    (h1 : ∀ x ∈ l1, Q x = false) (h2 : ∀ y ∈ l2, P y = false) :
    eventsOrdered P Q (l1 ++ l2) = true := by
  induction l1 with
  | nil => simpa using eventsOrdered_of_no_P P Q l2 h2
  | cons x xs ih =>
      simp only [List.cons_append, eventsOrdered, Bool.and_eq_true,
        Bool.or_eq_true]
      refine ⟨Or.inl ?_, ih fun y hy => h1 y (List.mem_cons_of_mem x hy)⟩
      simp [h1 x (List.mem_cons_self x xs)]

/-- Every event of the material segment is a material disposal. -/
lemma tdMat_kind (pk : ℕ) (pid : Option ℤ) (s : SceneState) :
    ∀ x ∈ tdMat pk pid s, x.isMatDispose = true := by
  intro x hx
  unfold tdMat at hx
  split at hx
  · rcases List.mem_map.mp hx with ⟨n, _, rfl⟩
    rfl
  · cases hx

/-- Every event of the mesh segment is a mesh disposal. -/
lemma tdMesh_kind (pk : ℕ) (pid : Option ℤ) (s : SceneState) :
    ∀ x ∈ tdMesh pk pid s, x.isMeshDispose = true := by
  intro x hx
  unfold tdMesh at hx
  split at hx
  · rcases List.mem_map.mp hx with ⟨n, _, rfl⟩
    rfl
  · cases hx

/-- Every event of the root segment is the root disposal. -/
lemma tdRoot_kind (pk : ℕ) (pid : Option ℤ) (s : SceneState) :
    ∀ x ∈ tdRoot pk pid s, x.isRootDispose = true := by
  intro x hx
  unfold tdRoot at hx
  split at hx
  · rcases List.mem_singleton.mp hx with rfl
    rfl
  · cases hx

/-- Every event of the close segment is a model close. -/
lemma tdClose_kind (pk : ℕ) (pid : Option ℤ) (io : ℤ → Bool) :
    ∀ x ∈ tdClose pk pid io, x.isClose = true := by
  intro x hx
  unfold tdClose at hx
  split at hx
  · cases pid with
    | none => cases hx
    | some mid =>
        dsimp only at hx
        unfold cleanupIfcModelTrace at hx
        split at hx
        · rcases List.mem_singleton.mp hx with rfl
          rfl
        · cases hx
  · cases hx

/-- The drop handler's trace decomposes into its material, mesh, root,
close and creation segments, in this order. -/
lemma dropHandlerTrace_segments (pk : ℕ) (pid : Option ℤ) (s : SceneState)
    (io : ℤ → Bool) (nm : List String) :
    dropHandlerTrace pk pid s io nm =
      tdMat pk pid s ++ (tdMesh pk pid s ++ (tdRoot pk pid s ++
        (tdClose pk pid io ++ nm.map Ev.createMesh))) := by
  by_cases hres : pk > 0 ∨ pid ≠ none
  · by_cases hroot : s.hasRoot = true
    · simp [dropHandlerTrace, disposeIfcSceneTrace, tdMat, tdMesh, tdRoot,
        tdClose, hres, hroot, List.append_assoc]
    · simp [dropHandlerTrace, disposeIfcSceneTrace, tdMat, tdMesh, tdRoot,
        tdClose, hres, hroot, List.append_assoc]
  · simp [dropHandlerTrace, tdMat, tdMesh, tdRoot, tdClose, hres]

/-- Event-order consequences of the five-segment decomposition. -/
lemma teardown_order_of_segments (A B C D E : List Ev)
    (hA : ∀ x ∈ A, x.isMatDispose = true)
    (hB : ∀ x ∈ B, x.isMeshDispose = true)
    (hC : ∀ x ∈ C, x.isRootDispose = true)
    (hD : ∀ x ∈ D, x.isClose = true)
    (hE : ∀ x ∈ E, x.isCreate = true) :
    eventsOrdered Ev.isMatDispose Ev.isMeshDispose
        (A ++ (B ++ (C ++ (D ++ E)))) = true ∧
    eventsOrdered Ev.isMeshDispose Ev.isRootDispose
        (A ++ (B ++ (C ++ (D ++ E)))) = true ∧
    eventsOrdered Ev.isRootDispose Ev.isClose
        (A ++ (B ++ (C ++ (D ++ E)))) = true ∧
    eventsOrdered Ev.isTeardown Ev.isCreate
        (A ++ (B ++ (C ++ (D ++ E)))) = true := by
  refine ⟨?_, ?_, ?_, ?_⟩
  · refine eventsOrdered_split _ _ A _ ?_ ?_
    · intro x hx
      have h := hA x hx
      cases x <;> simp_all [Ev.isMatDispose, Ev.isMeshDispose]
    · intro y hy
      simp only [List.mem_append] at hy
      rcases hy with h | h | h | h
      · have := hB y h
        cases y <;> simp_all [Ev.isMeshDispose, Ev.isMatDispose]
      · have := hC y h
        cases y <;> simp_all [Ev.isRootDispose, Ev.isMatDispose]
      · have := hD y h
        cases y <;> simp_all [Ev.isClose, Ev.isMatDispose]
      · have := hE y h
        cases y <;> simp_all [Ev.isCreate, Ev.isMatDispose]
  · rw [← List.append_assoc]
    refine eventsOrdered_split _ _ (A ++ B) _ ?_ ?_
    · intro x hx
      rcases List.mem_append.mp hx with h | h
      · have := hA x h
        cases x <;> simp_all [Ev.isMatDispose, Ev.isRootDispose]
      · have := hB x h
        cases x <;> simp_all [Ev.isMeshDispose, Ev.isRootDispose]
    · intro y hy
      simp only [List.mem_append] at hy
      rcases hy with h | h | h
      · have := hC y h
        cases y <;> simp_all [Ev.isRootDispose, Ev.isMeshDispose]
      · have := hD y h
        cases y <;> simp_all [Ev.isClose, Ev.isMeshDispose]
      · have := hE y h
        cases y <;> simp_all [Ev.isCreate, Ev.isMeshDispose]
  · rw [← List.append_assoc, ← List.append_assoc]
    refine eventsOrdered_split _ _ ((A ++ B) ++ C) _ ?_ ?_
    · intro x hx
      simp only [List.mem_append] at hx
      rcases hx with (h | h) | h
      · have := hA x h
        cases x <;> simp_all [Ev.isMatDispose, Ev.isClose]
      · have := hB x h
        cases x <;> simp_all [Ev.isMeshDispose, Ev.isClose]
      · have := hC x h
        cases x <;> simp_all [Ev.isRootDispose, Ev.isClose]
    · intro y hy
      simp only [List.mem_append] at hy
      rcases hy with h | h
      · have := hD y h
        cases y <;> simp_all [Ev.isClose, Ev.isRootDispose]
      · have := hE y h
        cases y <;> simp_all [Ev.isCreate, Ev.isRootDispose]
  · rw [← List.append_assoc, ← List.append_assoc, ← List.append_assoc]
    refine eventsOrdered_split _ _ (((A ++ B) ++ C) ++ D) _ ?_ ?_
    · intro x hx
      simp only [List.mem_append] at hx
      rcases hx with ((h | h) | h) | h
      · have := hA x h
        cases x <;> simp_all [Ev.isMatDispose, Ev.isCreate]
      · have := hB x h
        cases x <;> simp_all [Ev.isMeshDispose, Ev.isCreate]
      · have := hC x h
        cases x <;> simp_all [Ev.isRootDispose, Ev.isCreate]
      · have := hD x h
        cases x <;> simp_all [Ev.isClose, Ev.isCreate]
    · intro y hy
      have := hE y hy
      cases y <;> simp_all [Ev.isCreate, Ev.isTeardown, Ev.isMatDispose,
        Ev.isMeshDispose, Ev.isRootDispose, Ev.isClose]

end IfcBabylon

namespace IfcBabylon

/-- C5 — ColorKey quantization.  For channels in `[0,1]`: colors equal after
8-bit quantization of every channel get identical keys, and colors differing
by more than `1/255` in at least one channel get different keys. -/
theorem colorKey_quantization (c₁ c₂ : Color)
    (hx0 : 0 ≤ c₁.x) (hx1 : c₁.x ≤ 1) (hy0 : 0 ≤ c₁.y) (hy1 : c₁.y ≤ 1)
    (hz0 : 0 ≤ c₁.z) (hz1 : c₁.z ≤ 1) (hw0 : 0 ≤ c₁.w) (hw1 : c₁.w ≤ 1)
    (kx0 : 0 ≤ c₂.x) (kx1 : c₂.x ≤ 1) (ky0 : 0 ≤ c₂.y) (ky1 : c₂.y ≤ 1)
    (kz0 : 0 ≤ c₂.z) (kz1 : c₂.z ≤ 1) (kw0 : 0 ≤ c₂.w) (kw1 : c₂.w ≤ 1) :
    ((quant8 c₁.x = quant8 c₂.x ∧ quant8 c₁.y = quant8 c₂.y ∧
      quant8 c₁.z = quant8 c₂.z ∧ quant8 c₁.w = quant8 c₂.w) →
        colorIdOf (some c₁) = colorIdOf (some c₂)) ∧
    ((1 / 255 < |c₁.x - c₂.x| ∨ 1 / 255 < |c₁.y - c₂.y| ∨
      1 / 255 < |c₁.z - c₂.z| ∨ 1 / 255 < |c₁.w - c₂.w|) →
        colorIdOf (some c₁) ≠ colorIdOf (some c₂)) := by
  have bx := quant8_bounds hx0 hx1
  have by' := quant8_bounds hy0 hy1
  have bz := quant8_bounds hz0 hz1
  have bw := quant8_bounds hw0 hw1
  have cx := quant8_bounds kx0 kx1
  have cy := quant8_bounds ky0 ky1
  have cz := quant8_bounds kz0 kz1
  have cw := quant8_bounds kw0 kw1
  constructor
  · rintro ⟨h1, h2, h3, h4⟩
    simp only [colorIdOf, h1, h2, h3, h4]
  · intro hgap heq
    simp only [colorIdOf] at heq
    have hdig : quant8 c₁.x = quant8 c₂.x ∧ quant8 c₁.y = quant8 c₂.y ∧
        quant8 c₁.z = quant8 c₂.z ∧ quant8 c₁.w = quant8 c₂.w := by
      omega
    rcases hgap with h | h | h | h
    · exact quant8_ne_of_gap h hdig.1
    · exact quant8_ne_of_gap h hdig.2.1
    · exact quant8_ne_of_gap h hdig.2.2.1
    · exact quant8_ne_of_gap h hdig.2.2.2

/-- Witness for C5 at pure red vs pure blue. -/
theorem colorKey_quantization_witness :
    colorIdOf (some ⟨1, 0, 0, 1⟩) ≠ colorIdOf (some ⟨0, 0, 1, 1⟩) := by
  have h := colorKey_quantization ⟨1, 0, 0, 1⟩ ⟨0, 0, 1, 1⟩
    (by norm_num) (by norm_num) (by norm_num) (by norm_num)
    (by norm_num) (by norm_num) (by norm_num) (by norm_num)
    (by norm_num) (by norm_num) (by norm_num) (by norm_num)
    (by norm_num) (by norm_num) (by norm_num) (by norm_num)
  exact h.2 (Or.inl (by norm_num))

end IfcBabylon

namespace IfcBabylon

/-- Evaluation of the consolidation pass on the two-element colorless
fixture; independent of the storey map since both groups are singletons. -/
lemma consolidate_fragAB (storey : ℕ → Option ℕ) :
    (consolidate [fragA, fragB] storey 0).1 =
      [{ name := "ifc-1", expressID := 1, modelID := 0, colorId := 0,
         material := { name := "ifc-material-0", colorId := 0,
                       diffuse := (4/5, 4/5, 4/5), alpha := 1, zOffset := 0,
                       backFaceCulling := false },
         frags := [⟨1, 0, none, [0], [0]⟩] },
       { name := "ifc-2", expressID := 2, modelID := 0, colorId := 0,
         material := { name := "ifc-material-0", colorId := 0,
                       diffuse := (4/5, 4/5, 4/5), alpha := 1, zOffset := 0,
                       backFaceCulling := false },
         frags := [⟨2, 0, none, [0], [0]⟩] }] := by
  norm_num [consolidate, streamParts, toPart, buildGroups, insertGroup,
    keyOf, stepGroup, getMaterial, cacheLookup, mkGroupMeshes,
    canMergeMeshes, collectStoreys, mkMaterial, MatState.init, colorIdOf,
    fragA, fragB, List.filterMap_cons, List.foldl_cons, List.foldl_nil]
  decide

end IfcBabylon

namespace IfcBabylon

/-- C1 — Storey-safety of consolidation: for every pair of elements with
different ids and distinct nonempty storey assignments, no produced mesh
contains geometry of both.  (In this code the property holds because
grouping is keyed by `(expressID, colorId)`, so no produced mesh ever fuses
two different elements at all.) -/
theorem storey_safety_of_consolidation (frags : List Frag)
    (storey : ℕ → Option ℕ) (mid : ℤ) (a b sa sb : ℕ)
    (hab : a ≠ b) (ha : storey a = some sa) (hb : storey b = some sb)
    (hsab : sa ≠ sb) (m : RenderMesh)
    (hm : m ∈ (consolidate frags storey mid).1) :
    ¬ ((∃ f ∈ m.frags, f.expressID = a) ∧ (∃ g ∈ m.frags, g.expressID = b)) := by
  rintro ⟨⟨f, hf, hfa⟩, ⟨g, hg, hgb⟩⟩
  have h1 := consolidate_single_element frags storey mid m hm f hf
  have h2 := consolidate_single_element frags storey mid m hm g hg
  refine hab ?_
  rw [← hfa, ← hgb]
  exact h1.trans h2.symm

/-- Witness for C1: elements `1` (storey `10`) and `2` (storey `20`) never
share the first produced mesh. -/
theorem storey_safety_of_consolidation_witness :
    ¬ ((∃ f ∈ ((consolidate [fragA, fragB] storeyAB 0).1).headI.frags,
          f.expressID = 1) ∧
       (∃ g ∈ ((consolidate [fragA, fragB] storeyAB 0).1).headI.frags,
          g.expressID = 2)) := by
  refine storey_safety_of_consolidation [fragA, fragB] storeyAB 0 1 2 10 20
    (by decide) rfl rfl (by decide) _ ?_
  rw [consolidate_fragAB storeyAB]
  exact List.mem_cons_self _ _

/-- C2, counterexample — an element whose fragments carry two different
colors is split across two meshes, both of whose metadata resolves to that
element, and neither mesh fuses a different element (so the claim's
fused-elements exception does not apply). -/
theorem element_split_across_two_meshes :
    (consolidate [fragRed, fragBlue] (fun _ => none) 0).1.countP
        (fun m => decide (m.expressID = 1)) = 2 ∧
    (consolidate [fragRed, fragBlue] (fun _ => none) 0).1.all
        (fun m => m.frags.all (fun f => f.expressID == m.expressID)) = true := by
  have hconso : (consolidate [fragRed, fragBlue] (fun _ => none) 0).1 =
      [{ name := "ifc-1", expressID := 1, modelID := 0, colorId := 4278190335,
         material := { name := "ifc-material-4278190335",
                       colorId := 4278190335, diffuse := (1, 0, 0),
                       alpha := 1, zOffset := 0, backFaceCulling := false },
         frags := [⟨1, 4278190335, some ⟨1, 0, 0, 1⟩, [1], [0]⟩] },
       { name := "ifc-1", expressID := 1, modelID := 0, colorId := 4294901760,
         material := { name := "ifc-material-4294901760",
                       colorId := 4294901760, diffuse := (0, 0, 1),
                       alpha := 1, zOffset := 1/10, backFaceCulling := false },
         frags := [⟨1, 4294901760, some ⟨0, 0, 1, 1⟩, [2], [0]⟩] }] := by
    norm_num [consolidate, streamParts, toPart, buildGroups, insertGroup,
      keyOf, stepGroup, getMaterial, cacheLookup, mkGroupMeshes,
      canMergeMeshes, collectStoreys, mkMaterial, MatState.init, colorIdOf,
      quant8, fragRed, fragBlue, List.filterMap_cons, List.foldl_cons,
      List.foldl_nil]
    decide
  rw [hconso]
  exact ⟨by decide, by decide⟩

/-- C2, amended — one mesh per `(elementId, ColorKey)` group: whenever some
valid fragment carries `(e, c)`, exactly one produced mesh carries that
element id and color key; an element's fragments of different color keys
end up in different meshes, and no produced mesh ever fuses fragments of
two different elements. -/
theorem one_mesh_per_element_color_group (frags : List Frag)
    (storey : ℕ → Option ℕ) (mid : ℤ) (e : ℕ) (c : ℤ)
    (h : ∃ p ∈ streamParts frags, p.expressID = e ∧ p.colorId = c) :
    ((consolidate frags storey mid).1.countP
        (fun m => decide (m.expressID = e ∧ m.colorId = c)) = 1) ∧
    ∀ m ∈ (consolidate frags storey mid).1, ∀ f ∈ m.frags,
      f.expressID = m.expressID := by
  constructor
  · obtain ⟨p, hp, hpe, hpc⟩ := h
    have hkeyp : keyOf p = (e, c) := by
      rw [keyOf, hpe, hpc]
    have hg : ∀ kg ∈ buildGroups (streamParts frags),
        (∀ q ∈ kg.2, keyOf q = kg.1) ∧ kg.2 ≠ [] := by
      intro kg hkg
      exact ⟨fun q hq => (mem_buildGroups_key _ _ _ hkg q hq).1,
        mem_buildGroups_ne_nil _ _ _ hkg⟩
    have hcount := countP_foldl_groups storey mid e c
      (buildGroups (streamParts frags)) MatState.init [] hg
    have hkeys : (e, c) ∈ (buildGroups (streamParts frags)).map Prod.fst :=
      (mem_keys_foldl (streamParts frags) [] (e, c)).mpr
        (Or.inr ⟨p, hp, hkeyp⟩)
    have hsum : ((buildGroups (streamParts frags)).map
        (fun kg => if kg.1 = (e, c) then 1 else 0)).sum = 1 := by
      have hmm : (buildGroups (streamParts frags)).map
          (fun kg => if kg.1 = (e, c) then (1 : ℕ) else 0) =
          ((buildGroups (streamParts frags)).map Prod.fst).map
            (fun k => if k = (e, c) then (1 : ℕ) else 0) := by
        rw [List.map_map]
        rfl
      rw [hmm]
      exact sum_indicator_nodup _ _ (keys_buildGroups_nodup _) hkeys
    show ((buildGroups (streamParts frags)).foldl (stepGroup storey mid)
        (MatState.init, [])).2.countP _ = 1
    rw [hcount, hsum]
    rfl
  · exact fun m hm => consolidate_single_element frags storey mid m hm

/-- Witness for C2 (amended) at a single colorless fragment of element 1. -/
theorem one_mesh_per_element_color_group_witness :
    ((consolidate [fragA] (fun _ => none) 0).1.countP
        (fun m => decide (m.expressID = 1 ∧ m.colorId = 0)) = 1) ∧
    ∀ m ∈ (consolidate [fragA] (fun _ => none) 0).1, ∀ f ∈ m.frags,
      f.expressID = m.expressID := by
  have heval : streamParts [fragA] = [⟨1, 0, none, [0], [0]⟩] := by
    norm_num [streamParts, toPart, fragA, colorIdOf, List.filterMap_cons]
  exact one_mesh_per_element_color_group [fragA] (fun _ => none) 0 1 0
    ⟨⟨1, 0, none, [0], [0]⟩, heval ▸ List.mem_singleton.mpr rfl, rfl, rfl⟩

end IfcBabylon

namespace IfcBabylon

/-- C3, counterexample — in the drop handler's reload trace with one cached
material, one mesh under the root, and an open previous model, the claimed
teardown order (meshes before materials) fails: `disposeIfcScene` disposes
the materials first. -/
theorem teardown_order_claim_refuted :
    ¬ claimedTeardownOrder (dropHandlerTrace 1 (some 0)
        ⟨["ifc-material-0"], ["ifc-1"], true⟩ (fun _ => true) ["ifc-2"]) := by
  unfold claimedTeardownOrder
  decide

/-- C3, amended — on reload the drop handler first disposes the previous
load's cached materials, then (by disposing the root container) every mesh
under it, then the root node itself, then closes the previous parser model
handle; and every teardown event precedes the creation of any mesh of the
new model. -/
theorem teardown_order_amended (pk : ℕ) (pid : Option ℤ) (s : SceneState)
    (io : ℤ → Bool) (nm : List String) :
    eventsOrdered Ev.isMatDispose Ev.isMeshDispose
        (dropHandlerTrace pk pid s io nm) = true ∧
    eventsOrdered Ev.isMeshDispose Ev.isRootDispose
        (dropHandlerTrace pk pid s io nm) = true ∧
    eventsOrdered Ev.isRootDispose Ev.isClose
        (dropHandlerTrace pk pid s io nm) = true ∧
    eventsOrdered Ev.isTeardown Ev.isCreate
        (dropHandlerTrace pk pid s io nm) = true := by
  rw [dropHandlerTrace_segments]
  refine teardown_order_of_segments _ _ _ _ _ (tdMat_kind pk pid s)
    (tdMesh_kind pk pid s) (tdRoot_kind pk pid s) (tdClose_kind pk pid io) ?_
  intro x hx
  rcases List.mem_map.mp hx with ⟨n, _, rfl⟩
  rfl

/-- C4, counterexample — a fragment with parsed alpha `0.05` yields, through
the consolidation pass's `getMaterial`, a material with effective alpha
`0.05`, below the claimed floor `0.2`. -/
theorem alpha_floor_refuted :
    (consolidate [fragGlass] (fun _ => none) 0).1.map
        (fun m => m.material.alpha) = [1/20] ∧
    ¬ ((1 : ℚ)/5 ≤ 1/20) := by
  constructor
  · have hconso : (consolidate [fragGlass] (fun _ => none) 0).1 =
        [{ name := "ifc-1", expressID := 1, modelID := 0,
           colorId := 201326847,
           material := { name := "ifc-material-201326847",
                         colorId := 201326847, diffuse := (1, 0, 0),
                         alpha := 1/20, zOffset := 0,
                         backFaceCulling := false },
           frags := [⟨1, 201326847, some ⟨1, 0, 0, 1/20⟩, [0], [0]⟩] }] := by
      norm_num [consolidate, streamParts, toPart, buildGroups, insertGroup,
        keyOf, stepGroup, getMaterial, cacheLookup, mkGroupMeshes,
        canMergeMeshes, collectStoreys, mkMaterial, MatState.init, colorIdOf,
        quant8, fragGlass, List.filterMap_cons, List.foldl_cons,
        List.foldl_nil]
      decide
    rw [hconso]
    rfl
  · norm_num

/-- C4, amended — the `0.2` alpha floor is enforced by `createMaterial` in
`dstest.ts` (`Math.max(0.2, color.w)` for transparent colors); the
consolidation pass's `getMaterial` in `ifcLoader.ts` instead assigns the
literal parsed alpha, with no floor. -/
theorem alpha_floor_amended (c : Color) (key : String) (ds : Bool)
    (st : MatState) (cid : ℤ)
    (h0 : 0 < c.w) (h1 : c.w < 1)
    (hmiss : cacheLookup st.cache cid = none) :
    (createMaterial key (some c) ds).alpha = max (1/5) c.w ∧
    1/5 ≤ (createMaterial key (some c) ds).alpha ∧
    (getMaterial st cid (some c)).1.alpha = c.w := by
  have ha : (createMaterial key (some c) ds).alpha = max (1/5) c.w := by
    simp [createMaterial, h1]
  refine ⟨ha, ?_, ?_⟩
  · rw [ha]
    exact le_max_left _ _
  · unfold getMaterial
    rw [hmiss]
    rfl

/-- Witness for C4 (amended) at alpha `0.05`. -/
theorem alpha_floor_amended_witness :
    (createMaterial sampleKey (some ⟨1, 0, 0, 1/20⟩) false).alpha =
        max (1/5) (1/20) ∧
    (1 : ℚ)/5 ≤ (createMaterial sampleKey (some ⟨1, 0, 0, 1/20⟩) false).alpha ∧
    (getMaterial MatState.init 201326847 (some ⟨1, 0, 0, 1/20⟩)).1.alpha =
        1/20 :=
  alpha_floor_amended ⟨1, 0, 0, 1/20⟩ sampleKey false MatState.init
    201326847 (by norm_num) (by norm_num) rfl

end IfcBabylon

namespace IfcBabylon

/-- C6 — Error propagation policy: the overall load fails exactly on a
source-fetch failure or a parser-open failure (`OpenModel` returning `-1`);
a fragment whose processing throws is skipped without affecting the overall
result in any way. -/
theorem error_propagation_policy (src : Source) (openResult : ℤ)
    (l1 l2 : List Frag) (f : Frag) (storey : ℕ → Option ℕ)
    (hf : f.decodeFails = true) :
    ((∃ er, loadAndRenderIfc src openResult (l1 ++ f :: l2) storey =
        .error er) ↔ fetchFails src = true ∨ openResult = -1) ∧
    loadAndRenderIfc src openResult (l1 ++ f :: l2) storey =
      loadAndRenderIfc src openResult (l1 ++ l2) storey := by
  constructor
  · rw [← loadIfcFile_error_iff src openResult]
    cases hres : loadIfcFile src openResult with
    | error e => simp [loadAndRenderIfc, hres]
    | ok mid => simp [loadAndRenderIfc, hres]
  · unfold loadAndRenderIfc
    cases hres : loadIfcFile src openResult with
    | error e => rfl
    | ok mid =>
        dsimp only
        rw [consolidate_skip f l1 l2 storey mid (toPart_none_of_fails f hf)]

/-- Witness for C6: a successful fetch and open with one good and one
throwing fragment. -/
theorem error_propagation_policy_witness :
    ((∃ er, loadAndRenderIfc (.url true 200) 5 [fragA, fragBad]
        (fun _ => none) = .error er) ↔
      fetchFails (.url true 200) = true ∨ (5 : ℤ) = -1) ∧
    loadAndRenderIfc (.url true 200) 5 [fragA, fragBad] (fun _ => none) =
      loadAndRenderIfc (.url true 200) 5 [fragA] (fun _ => none) :=
  error_propagation_policy (.url true 200) 5 [fragA] [] fragBad
    (fun _ => none) rfl

/-- C7 — Empty-geometry fragments are skipped silently: a fragment with an
empty vertex or index buffer is dropped by the streaming pass, and the
consolidation result (meshes and every statistic, `originalMeshCount`
included) is as if the fragment had not been streamed; no failure value is
involved. -/
theorem empty_fragment_skipped (f : Frag) (l1 l2 : List Frag)
    (storey : ℕ → Option ℕ) (mid : ℤ)
    (hf : f.verts = [] ∨ f.indices = []) :
    toPart f = none ∧
    consolidate (l1 ++ f :: l2) storey mid =
      consolidate (l1 ++ l2) storey mid :=
  ⟨toPart_none_of_empty f hf,
   consolidate_skip f l1 l2 storey mid (toPart_none_of_empty f hf)⟩

/-- Witness for C7 at a fragment with an empty vertex buffer. -/
theorem empty_fragment_skipped_witness :
    toPart fragEmpty = none ∧
    consolidate [fragA, fragEmpty, fragB] storeyAB 0 =
      consolidate [fragA, fragB] storeyAB 0 :=
  empty_fragment_skipped fragEmpty [fragA] [fragB] storeyAB 0 (Or.inl rfl)

/-- C8 — Order-independence of grouping: streaming any permutation of the
fragment sequence yields the same `MergeGroup` memberships (the partition
of valid fragments by `(expressID, colorId)` has the same members under
every key). -/
theorem grouping_order_independent (frags frags' : List Frag)
    (hperm : frags.Perm frags') (k : GroupKey) (p : PartMesh) :
    (p ∈ groupContents (buildGroups (streamParts frags)) k ↔
      p ∈ groupContents (buildGroups (streamParts frags')) k) := by
  rw [groupContents_buildGroups, groupContents_buildGroups]
  exact ((hperm.filterMap toPart).filter _).mem_iff

/-- Witness for C8 at a two-fragment swap. -/
theorem grouping_order_independent_witness :
    ((⟨1, 0, none, [0], [0]⟩ : PartMesh) ∈
        groupContents (buildGroups (streamParts [fragA, fragB])) (1, 0) ↔
      (⟨1, 0, none, [0], [0]⟩ : PartMesh) ∈
        groupContents (buildGroups (streamParts [fragB, fragA])) (1, 0)) :=
  grouping_order_independent [fragA, fragB] [fragB, fragA]
    (List.Perm.swap fragB fragA []) (1, 0) ⟨1, 0, none, [0], [0]⟩

/-- C9 — `getModelBounds` returns `null` for an empty mesh list (instead of
a record of infinities), and for a nonempty list returns the finite
min/max/center/size (and squared diagonal) computed from the meshes' world
bounding boxes. -/
theorem getModelBounds_spec :
    getModelBounds [] = none ∧
    ∀ (bb : BoundingBox) (l : List BoundingBox),
      getModelBounds (bb :: l) =
        some { min := ⟨(l.map fun b => b.minimumWorld.x).foldl min bb.minimumWorld.x,
                       (l.map fun b => b.minimumWorld.y).foldl min bb.minimumWorld.y,
                       (l.map fun b => b.minimumWorld.z).foldl min bb.minimumWorld.z⟩
               max := ⟨(l.map fun b => b.maximumWorld.x).foldl max bb.maximumWorld.x,
                       (l.map fun b => b.maximumWorld.y).foldl max bb.maximumWorld.y,
                       (l.map fun b => b.maximumWorld.z).foldl max bb.maximumWorld.z⟩
               center := ⟨(((l.map fun b => b.minimumWorld.x).foldl min bb.minimumWorld.x) +
                           ((l.map fun b => b.maximumWorld.x).foldl max bb.maximumWorld.x)) / 2,
                          (((l.map fun b => b.minimumWorld.y).foldl min bb.minimumWorld.y) +
                           ((l.map fun b => b.maximumWorld.y).foldl max bb.maximumWorld.y)) / 2,
                          (((l.map fun b => b.minimumWorld.z).foldl min bb.minimumWorld.z) +
                           ((l.map fun b => b.maximumWorld.z).foldl max bb.maximumWorld.z)) / 2⟩
               size := ⟨((l.map fun b => b.maximumWorld.x).foldl max bb.maximumWorld.x) -
                        ((l.map fun b => b.minimumWorld.x).foldl min bb.minimumWorld.x),
                        ((l.map fun b => b.maximumWorld.y).foldl max bb.maximumWorld.y) -
                        ((l.map fun b => b.minimumWorld.y).foldl min bb.minimumWorld.y),
                        ((l.map fun b => b.maximumWorld.z).foldl max bb.maximumWorld.z) -
                        ((l.map fun b => b.minimumWorld.z).foldl min bb.minimumWorld.z)⟩
               diagonalSq :=
                 (((l.map fun b => b.maximumWorld.x).foldl max bb.maximumWorld.x) -
                  ((l.map fun b => b.minimumWorld.x).foldl min bb.minimumWorld.x)) ^ 2 +
                 (((l.map fun b => b.maximumWorld.y).foldl max bb.maximumWorld.y) -
                  ((l.map fun b => b.minimumWorld.y).foldl min bb.minimumWorld.y)) ^ 2 +
                 (((l.map fun b => b.maximumWorld.z).foldl max bb.maximumWorld.z) -
                  ((l.map fun b => b.minimumWorld.z).foldl min bb.minimumWorld.z)) ^ 2 } := by
  refine ⟨rfl, ?_⟩
  intro bb l
  unfold getModelBounds
  rw [if_neg (by simp)]
  simp only [List.map_cons, foldMinInf_cons, foldMaxInf_cons, Option.getD_some]

/-- C10, counterexample — a fragment whose color quantizes to `0` in every
channel is grouped under the sentinel key `0`, but its cached material is
not the default gray: it carries the literal near-zero color. -/
theorem sentinel_gray_refuted :
    (consolidate [fragTiny] (fun _ => none) 0).1.map (fun m => m.colorId) =
      [0] ∧
    (consolidate [fragTiny] (fun _ => none) 0).1.map
      (fun m => m.material.diffuse) = [(1/500, 1/500, 1/500)] ∧
    ((1/500, 1/500, 1/500) : ℚ × ℚ × ℚ) ≠ (4/5, 4/5, 4/5) := by
  have hconso : (consolidate [fragTiny] (fun _ => none) 0).1 =
      [{ name := "ifc-3", expressID := 3, modelID := 0, colorId := 0,
         material := { name := "ifc-material-0", colorId := 0,
                       diffuse := (1/500, 1/500, 1/500), alpha := 1/500,
                       zOffset := 0, backFaceCulling := false },
         frags := [⟨3, 0, some ⟨1/500, 1/500, 1/500, 1/500⟩, [0], [0]⟩] }] := by
    norm_num [consolidate, streamParts, toPart, buildGroups, insertGroup,
      keyOf, stepGroup, getMaterial, cacheLookup, mkGroupMeshes,
      canMergeMeshes, collectStoreys, mkMaterial, MatState.init, colorIdOf,
      quant8, fragTiny, List.filterMap_cons, List.foldl_cons, List.foldl_nil]
    decide
  refine ⟨by rw [hconso]; rfl, by rw [hconso]; rfl, ?_⟩
  intro h
  have h1 := congrArg Prod.fst h
  norm_num at h1

/-- C10, amended — the sentinel key for an absent color is `0`, equal to
the key of any color whose channels all quantize to `0`; all produced
meshes with key `0` share one cached material; and that material is the
default gray provided every valid key-`0` fragment is colorless (otherwise
it carries the first such group's literal color, which is how the
counterexample arises). -/
theorem sentinel_key_amended (c : Color)
    (hx0 : 0 ≤ c.x) (hx1 : c.x < 1/255) (hy0 : 0 ≤ c.y) (hy1 : c.y < 1/255)
    (hz0 : 0 ≤ c.z) (hz1 : c.z < 1/255) (hw0 : 0 ≤ c.w) (hw1 : c.w < 1/255)
    (frags : List Frag) (storey : ℕ → Option ℕ) (mid : ℤ)
    (m1 m2 : RenderMesh)
    (hm1 : m1 ∈ (consolidate frags storey mid).1)
    (hm2 : m2 ∈ (consolidate frags storey mid).1)
    (h1 : m1.colorId = 0) (h2 : m2.colorId = 0) :
    colorIdOf none = 0 ∧
    colorIdOf (some c) = 0 ∧
    m1.material = m2.material ∧
    ((∀ p ∈ streamParts frags, p.colorId = 0 → p.color = none) →
      isDefaultGray m1.material) := by
  have hq : ∀ r : ℚ, 0 ≤ r → r < 1/255 → quant8 r = 0 := by
    intro r hr0 hr1
    unfold quant8
    rw [Int.floor_eq_zero_iff, Set.mem_Ico]
    constructor
    · nlinarith
    · nlinarith
  have hcache := foldl_groups_cache_inv storey mid
    (buildGroups (streamParts frags)) MatState.init []
    (by intro m hm; cases hm)
  have hc1 := hcache m1 hm1
  have hc2 := hcache m2 hm2
  rw [h1] at hc1
  rw [h2] at hc2
  refine ⟨rfl, ?_, Option.some_inj.mp (hc1.symm.trans hc2), ?_⟩
  · simp [colorIdOf, hq c.x hx0 hx1, hq c.y hy0 hy1, hq c.z hz0 hz1,
      hq c.w hw0 hw1]
  · intro hcol
    have hgroups : ∀ kg ∈ buildGroups (streamParts frags), ∀ q ∈ kg.2,
        q.colorId = 0 → q.color = none := by
      intro kg hkg q hq' hq0
      exact hcol q (mem_buildGroups_key _ _ _ hkg q hq').2 hq0
    have hgray := foldl_groups_gray_inv storey mid
      (buildGroups (streamParts frags)) MatState.init [] hgroups
      (by intro r hr; simp [MatState.init, cacheLookup] at hr)
    exact hgray m1.material hc1

/-- Witness for C10 (amended) at color `(1/500, 1/500, 1/500, 1/500)` and a
single colorless fragment. -/
theorem sentinel_key_amended_witness :
    colorIdOf none = 0 ∧
    colorIdOf (some ⟨1/500, 1/500, 1/500, 1/500⟩) = 0 ∧
    ((consolidate [fragA, fragB] (fun _ => none) 0).1).headI.material =
      (((consolidate [fragA, fragB] (fun _ => none) 0).1).getD 1
        default).material ∧
    ((∀ p ∈ streamParts [fragA, fragB], p.colorId = 0 → p.color = none) →
      isDefaultGray
        ((consolidate [fragA, fragB] (fun _ => none) 0).1).headI.material) := by
  refine sentinel_key_amended ⟨1/500, 1/500, 1/500, 1/500⟩
    (by norm_num) (by norm_num) (by norm_num) (by norm_num)
    (by norm_num) (by norm_num) (by norm_num) (by norm_num)
    [fragA, fragB] (fun _ => none) 0 _ _ ?_ ?_ ?_ ?_
  · rw [consolidate_fragAB]
    exact List.mem_cons_self _ _
  · rw [consolidate_fragAB]
    exact List.mem_cons_of_mem _ (List.mem_cons_self _ _)
  · rw [consolidate_fragAB]
    rfl
  · rw [consolidate_fragAB]
    rfl

end IfcBabylon
